import Mathlib

/-!
Verification of the FileHandling backend (Graduate_Project).

This file gives a shallow Lean embedding of the parts of the code the
claims are about:

* `DiagramAgent._apply_changes` (src/agents/DiagramAgent.py): JSON diagram
  documents are modelled as a structure of optional entity/relationship
  arrays plus an opaque payload of other keys; Python dict elements are
  modelled as structures whose accessed fields (`name`, `from`, `to`,
  `fromClass`, `toClass`, `type`) are `Option String` (a missing key reads
  as `none`, matching `dict.get`), with an opaque `rest` payload for the
  remaining keys.  Because `_apply_changes` starts from a *shallow* copy
  of its argument (`current_diagram.copy()`), in-place `list.append` on a
  category array that is still shared with the caller also mutates the
  caller's document; the embedding therefore returns a pair
  `(result, final value of the current_diagram argument)`, tracking the
  aliasing explicitly.

* `Project` (src/utils/Project.py) and `Context` (src/utils/Context.py):
  the filesystem is modelled as an explicit state (a list of existing
  directories and a list of file entries carrying directory, name,
  content and timestamps); `os` calls become lookups into that state, and
  the stateful methods become functions from (project, filesystem) to
  (result, project, filesystem).  `datetime.now()` becomes an explicit
  `now : Nat` argument; the lossless `datetime.isoformat` /
  `fromisoformat` round-trip is modelled by storing the timestamp value
  itself in the serialized metadata, and `datetime.fromtimestamp(t).isoformat()`
  appearing inside file records is modelled by the injective printer
  `Nat.repr`.  `json.dump` followed by `json.load` of the same file is
  modelled as the identity on the metadata value.
-/

set_option autoImplicit false

/-! ## Diagram documents (DiagramAgent._apply_changes) -/

/-- An entity element of a diagram document (a class, actor or use case):
`name` models `elem.get("name")` and `rest` the remaining key/value pairs
of the Python dict, which `_apply_changes` never inspects. -/
structure Elem where
  name : Option String
  rest : List (String × String)
deriving DecidableEq, Repr

/-- A relationship element: `fromClass`/`toClass` model
`rel.get("fromClass")`/`rel.get("toClass")`, `fromKey`/`toKey` model
`rel.get("from")`/`rel.get("to")` (`from` is a Lean keyword), `type`
models `rel.get("type")`; `rest` is the opaque remainder of the dict. -/
structure RelElem where
  fromClass : Option String
  toClass : Option String
  fromKey : Option String
  toKey : Option String
  type : Option String
  rest : List (String × String)
deriving DecidableEq, Repr

/-- A removal criterion for relationships, a dict read through
`get("from")`, `get("to")`, `get("type")`. -/
structure RemCrit where
  fromKey : Option String
  toKey : Option String
  type : Option String
deriving DecidableEq, Repr

/-- A diagram document: each category key is optional (absent key =
`none`), and `rest` carries the other keys of the dict, copied verbatim
by `current_diagram.copy()`. -/
structure Diagram where
  classes : Option (List Elem)
  actors : Option (List Elem)
  useCases : Option (List Elem)
  relationships : Option (List RelElem)
  rest : List (String × String)
deriving DecidableEq, Repr

/-- The per-category change dict for classes/actors/useCases:
`remove` is a list of names, `add` a list of candidate elements. -/
structure CatChanges where
  remove : Option (List String)
  add : Option (List Elem)
deriving DecidableEq, Repr

/-- The change dict for relationships. -/
structure RelChanges where
  remove : Option (List RemCrit)
  add : Option (List RelElem)
deriving DecidableEq, Repr

/-- The `changes["changes"]` envelope contents. -/
structure ChangeData where
  classes : Option CatChanges
  actors : Option CatChanges
  useCases : Option CatChanges
  relationships : Option RelChanges
deriving DecidableEq, Repr

/-- The change-set passed to `_apply_changes`; `changes` is `none` when
the `"changes"` key is absent. -/
structure Changes where
  changes : Option ChangeData
deriving DecidableEq, Repr

/-- `cls.get("name") not in classes_to_remove`: a `none` name is never a
member of a set of strings. -/
def nameRemoved (rs : List String) (e : Elem) : Bool :=
  match e.name with
  | none => false
  | some n => rs.contains n

/-- The duplicate-name guarded append loop for an entity category:
`for new in adds: existing_names = {e.get("name") for e in acc};
if new.get("name") not in existing_names: acc.append(new)`.
The set of existing names is recomputed before each candidate. -/
def addFold (base : List Elem) (adds : List Elem) : List Elem :=
  adds.foldl
    (fun acc c => if c.name ∈ acc.map Elem.name then acc else acc ++ [c])
    base

/-- The keep-predicate of the relationship removal filter: a stored `rel`
is kept against a criterion unless it matches it under the
`fromClass`/`toClass` convention or under the `from`/`to` convention
(Python `==` on possibly-missing keys, `None == None` being `True`). -/
def keepRel (crit : RemCrit) (r : RelElem) : Bool :=
  !(r.fromClass == crit.fromKey && r.toClass == crit.toKey && r.type == crit.type) &&
  !(r.fromKey == crit.fromKey && r.toKey == crit.toKey && r.type == crit.type)

/-- The relationship removal loop: one list-comprehension reassignment of
`modified["relationships"]` per criterion. -/
def removeRelFold (l : List RelElem) (rs : List RemCrit) : List RelElem :=
  rs.foldl (fun acc crit => acc.filter (keepRel crit)) l

/-- The duplicate test of the relationship add loop, exactly as in the
source: the stored relationship's `fromClass`/`toClass`/`type` are
compared with the *candidate's* `fromClass`/`toClass`/`type`, and its
`from`/`to`/`type` with the candidate's `from`/`to`/`type` — each naming
convention is checked against itself, never across conventions. -/
def relDup (acc : List RelElem) (c : RelElem) : Bool :=
  acc.any (fun r =>
    (r.fromClass == c.fromClass && r.toClass == c.toClass && r.type == c.type) ||
    (r.fromKey == c.fromKey && r.toKey == c.toKey && r.type == c.type))

/-- The guarded append loop for relationships. -/
def relAddFold (base : List RelElem) (adds : List RelElem) : List RelElem :=
  adds.foldl (fun acc c => if relDup acc c then acc else acc ++ [c]) base

/-- One entity category of `_apply_changes` (the classes/actors/useCases
blocks are verbatim copies of each other).  Returns
`(modified[k], current[k] after the call)`: because `modified` is a
shallow copy, `modified[k]` initially *aliases* `current[k]`; a remove
reassigns `modified[k]` to a fresh filtered list (breaking the alias,
even when the removal list is empty), while `append` during the add loop
mutates the list in place — so when the alias is still live the appends
show through to the caller's document. -/
def applyEntity (cc : Option CatChanges) (cur : Option (List Elem)) :
    Option (List Elem) × Option (List Elem) :=
  match cc with
  | none => (cur, cur)
  | some c =>
    let step1 : Option (List Elem) × Bool :=
      match c.remove, cur with
      | some rs, some l => (some (l.filter (fun e => !nameRemoved rs e)), false)
      | some _, none => (none, true)
      | none, _ => (cur, true)
    match c.add with
    | none => (step1.1, cur)
    | some adds =>
      let base : List Elem × Bool :=
        match step1.1 with
        | none => ([], false)
        | some l => (l, step1.2)
      let res := addFold base.1 adds
      (some res, if base.2 then some res else cur)

/-- The relationships block of `_apply_changes`.  Unlike the entity
categories, the removal reassignment happens once per criterion inside
the loop, so an *empty* removal list leaves the alias with the caller's
list intact. -/
def applyRel (rc : Option RelChanges) (cur : Option (List RelElem)) :
    Option (List RelElem) × Option (List RelElem) :=
  match rc with
  | none => (cur, cur)
  | some c =>
    let step1 : Option (List RelElem) × Bool :=
      match c.remove, cur with
      | some rs, some l => (some (removeRelFold l rs), rs.isEmpty)
      | some _, none => (none, true)
      | none, _ => (cur, true)
    match c.add with
    | none => (step1.1, cur)
    | some adds =>
      let base : List RelElem × Bool :=
        match step1.1 with
        | none => ([], false)
        | some l => (l, step1.2)
      let res := relAddFold base.1 adds
      (some res, if base.2 then some res else cur)

/-- `DiagramAgent._apply_changes`, with the heap effect made explicit:
the first component is the returned document, the second is the value of
the `current_diagram` argument *after* the call (mutated through the
shared category lists whenever an add appends to a still-aliased list). -/
def applyChangesPair (d : Diagram) (ch : Changes) : Diagram × Diagram :=
  match ch.changes with
  | none => (d, d)
  | some cd =>
    let pc := applyEntity cd.classes d.classes
    let pa := applyEntity cd.actors d.actors
    let pu := applyEntity cd.useCases d.useCases
    let pr := applyRel cd.relationships d.relationships
    ({ d with classes := pc.1, actors := pa.1, useCases := pu.1, relationships := pr.1 },
     { d with classes := pc.2, actors := pa.2, useCases := pu.2, relationships := pr.2 })

/-- The return value of `_apply_changes`. -/
def applyChanges (d : Diagram) (ch : Changes) : Diagram :=
  (applyChangesPair d ch).1

/-- The value of the `current_diagram` argument after `_apply_changes`
returns. -/
def applyChangesFinalArg (d : Diagram) (ch : Changes) : Diagram :=
  (applyChangesPair d ch).2

/-- A change-set that only touches relationships. -/
def relOnly (rc : RelChanges) : Changes :=
  ⟨some ⟨none, none, none, some rc⟩⟩

/-- A change-set that only touches classes. -/
def classesOnly (cc : CatChanges) : Changes :=
  ⟨some ⟨some cc, none, none, none⟩⟩

example :
    applyChanges
      ⟨none, none, none,
        some [⟨some "A", some "B", none, none, some "association", []⟩], []⟩
      (relOnly ⟨some [⟨some "A", some "B", some "association"⟩], none⟩) =
      ⟨none, none, none, some [], []⟩ := by decide

example :
    applyChanges
      ⟨some [⟨some "User", []⟩], none, none, none, []⟩
      (classesOnly ⟨none, some [⟨some "User", [("attributes", "x")]⟩]⟩) =
      ⟨some [⟨some "User", []⟩], none, none, none, []⟩ := by decide

/-! ## Filesystem model (for src/utils/Project.py and Context.py)

The filesystem is an explicit state: a list of directory paths that
exist, and a list of file entries.  `os.path.join(d, n)` on the
already-absolute directory paths of a project is `d ++ "/" ++ n`.  IO
errors (permission failures etc.) are not modelled: reads and writes on
the modelled state always succeed, matching the happy paths of the code.
-/

/-- `os.path.join` for an absolute directory and a relative name. -/
def pathJoin (d n : String) : String := d ++ "/" ++ n

/-- Python's `str.lower()`, as a kernel-evaluable character map (the
core `String.toLower` is defined by well-founded recursion, which the
kernel will not unfold during `decide`). -/
def strToLower (s : String) : String := ⟨s.data.map Char.toLower⟩

/-- Python's `str.endswith(suffix)`, as a kernel-evaluable check on the
underlying character lists. -/
def strEndsWith (s suffix : String) : Bool :=
  decide (suffix.data.length ≤ s.data.length) &&
    s.data.drop (s.data.length - suffix.data.length) == suffix.data

/-- One regular file on disk. -/
structure FsEntry where
  dir : String
  name : String
  content : String
  ctime : Nat
  mtime : Nat
deriving DecidableEq, Repr

/-- The full path of an entry. -/
def FsEntry.path (e : FsEntry) : String := pathJoin e.dir e.name

/-- The filesystem state: existing directories and regular files. -/
structure FS where
  dirs : List String
  entries : List FsEntry
deriving DecidableEq, Repr

/-- `os.path.isfile`. -/
def FS.isfile (fs : FS) (p : String) : Bool :=
  fs.entries.any (fun e => e.path == p)

/-- `os.path.exists` (true for directories and files). -/
def FS.existsPath (fs : FS) (p : String) : Bool :=
  fs.dirs.contains p || fs.isfile p

/-- `os.listdir`: the names of the entries of a directory, in directory
order. -/
def FS.listdir (fs : FS) (d : String) : List String :=
  (fs.entries.filter (fun e => e.dir == d)).map FsEntry.name

/-- The entry stored at a path, if any. -/
def FS.lookup (fs : FS) (p : String) : Option FsEntry :=
  fs.entries.find? (fun e => e.path == p)

/-- `os.path.getsize` (0 for a missing file; the code only calls it on
files just listed). -/
def FS.getsize (fs : FS) (p : String) : Nat :=
  ((fs.lookup p).map (fun e => e.content.length)).getD 0

/-- `os.path.getctime`. -/
def FS.getctime (fs : FS) (p : String) : Nat :=
  ((fs.lookup p).map FsEntry.ctime).getD 0

/-- `os.path.getmtime`. -/
def FS.getmtime (fs : FS) (p : String) : Nat :=
  ((fs.lookup p).map FsEntry.mtime).getD 0

/-- `open(path, "w")` followed by `write(content)`: truncate an existing
file or create a fresh one. -/
def FS.write (fs : FS) (d n content : String) (now : Nat) : FS :=
  if fs.isfile (pathJoin d n) then
    { fs with entries := fs.entries.map (fun e =>
        if e.path == pathJoin d n then { e with content := content, mtime := now } else e) }
  else
    { fs with entries := fs.entries ++ [⟨d, n, content, now, now⟩] }

/-- `os.rename(oldPath, newDir/newName)`. -/
def FS.rename (fs : FS) (oldPath newDir newName : String) : FS :=
  { fs with entries := fs.entries.map (fun e =>
      if e.path == oldPath then { e with dir := newDir, name := newName } else e) }

/-! ## Project and Context (src/utils/Project.py, src/utils/Context.py) -/

/-- `os.path.splitext` on a bare file name: split at the last dot,
except that a name whose characters before the last dot are all dots
(such as `".bashrc"`) has no extension. -/
def splitext (s : String) : String × String :=
  let cs := s.data
  let dotIdxs := (cs.enum.filter (fun q => q.2 = '.')).map Prod.fst
  match dotIdxs.getLast? with
  | none => (s, "")
  | some i =>
    if (cs.take i).all (fun c => c = '.') then (s, "")
    else (⟨cs.take i⟩, ⟨cs.drop i⟩)

/-- `Project._get_file_type_from_extension`. -/
def fileTypeFromExtension (file_name : String) : String :=
  let extension := strToLower (splitext file_name).2
  if extension ∈ [".txt", ".md", ".csv"] then "text"
  else if extension ∈ [".png", ".jpg", ".jpeg", ".gif", ".bmp", ".svg"] then "image"
  else if extension ∈ [".xlsx", ".xls"] then "excel"
  else if extension = ".pdf" then "pdf"
  else if extension = ".json" then "json"
  else if extension ∈ [".html", ".htm"] then "html"
  else "file"

/-- `datetime.fromtimestamp(t).isoformat()`: an injective printer of the
timestamp stands in for the ISO date string. -/
def isoformatTs (t : Nat) : String := Nat.repr t

/-- One tracked file record (the dict built by
`Project.scan_and_update_files`). -/
structure FileRec where
  path : String
  name : String
  type : String
  added_date : String
  modified_date : String
  size : Nat
deriving DecidableEq, Repr

/-- The three buckets of `Project.files`. -/
structure ProjFiles where
  input : List FileRec
  processed : List FileRec
  output : List FileRec
deriving DecidableEq, Repr

/-- A record of `Project.processing_history`
(see `Project.add_processing_record`). -/
structure HistRecord where
  timestamp : String
  operation : String
  input_files : List String
  output_files : List (String × String)
  details : List (String × String)
deriving DecidableEq, Repr

/-- `Requirements` (src/utils/Context.py). -/
structure Requirements where
  input_description : String
  output_description : String
  features : List (String × String)
  further_requirements : String
deriving DecidableEq, Repr

/-- `Context` (src/utils/Context.py); the back-reference to the owning
project is passed explicitly to the functions that need it. -/
structure ContextM where
  project_name : String
  csv_description : List String
  ui_image : List String
  diagram_image : List String
  requirements : Requirements
  tech_stack : String
  generated_text_doc : List (String × String)
  generated_diagram : List (String × String)
  prototype_code : String
deriving DecidableEq, Repr

/-- `Project` (src/utils/Project.py). -/
structure Project where
  name : String
  id : String
  created_date : Nat
  modified_date : Nat
  base_dir : String
  project_dir : String
  input_dir : String
  processed_dir : String
  output_dir : String
  description : String
  tags : List String
  files : ProjFiles
  processing_history : List HistRecord
  context : ContextM
deriving DecidableEq, Repr

/-- `Project.get_image_dirs`: paths of processed files whose lower-cased
path ends with `.png`, `.jpg` or `.jpeg`. -/
def getImageDirs (p : Project) : List String :=
  (p.files.processed.filter (fun f =>
    strEndsWith (strToLower f.path) ".png" || strEndsWith (strToLower f.path) ".jpg" ||
    strEndsWith (strToLower f.path) ".jpeg")).map FileRec.path

/-- `Project.get_csv_dirs`. -/
def getCsvDirs (p : Project) : List String :=
  (p.files.processed.filter (fun f => strEndsWith (strToLower f.path) ".csv")).map FileRec.path

/-- `Context.update_from_project`: refresh the project name, re-read the
CSV contents from disk (a file that fails to open is skipped), and set
both image lists to all processed-bucket image paths. -/
def updateFromProject (p : Project) (fs : FS) (c : ContextM) : ContextM :=
  let all_images := getImageDirs p
  { c with
    project_name := p.name
    csv_description := (getCsvDirs p).filterMap (fun path => (fs.lookup path).map FsEntry.content)
    ui_image := all_images
    diagram_image := all_images }

/-- `Context.__init__`: fresh empty fields, then `update_from_project`. -/
def contextInit (p : Project) (fs : FS) : ContextM :=
  updateFromProject p fs
    { project_name := "", csv_description := [], ui_image := [], diagram_image := []
      requirements := ⟨"", "", [], ""⟩, tech_stack := ""
      generated_text_doc := [], generated_diagram := [], prototype_code := "" }

/-- Code-point lexicographic `≤` on character lists: Python's string
comparison (and Lean's, but as a kernel-evaluable Bool). -/
def charListLe : List Char → List Char → Bool
  | [], _ => true
  | _ :: _, [] => false
  | a :: as, b :: bs =>
    decide (a.toNat < b.toNat) || (decide (a.toNat = b.toNat) && charListLe as bs)

/-- Python's `s1 <= s2` on strings. -/
def strLe (a b : String) : Bool := charListLe a.data b.data

/-- Stable insertion into a name-sorted list of records: a new record
goes in front of the first record with a `≥` name.  Together with
`sortByName` this models Python's stable `sorted(..., key=name)`. -/
def insFile (x : FileRec) : List FileRec → List FileRec
  | [] => [x]
  | y :: ys => if strLe x.name y.name then x :: y :: ys else y :: insFile x ys

/-- `sorted(files, key=lambda x: x["name"])`. -/
def sortByName (l : List FileRec) : List FileRec := l.foldr insFile []

/-- The per-directory body of `Project.scan_and_update_files`: list the
directory (if it exists), keep regular files, skip `*.geometry.json`,
skip paths already collected, and build the file records. -/
def scanDir (fs : FS) (directory : String) : List FileRec :=
  if fs.existsPath directory then
    (fs.listdir directory).foldl (fun acc file_name =>
      let file_path := pathJoin directory file_name
      if fs.isfile file_path then
        if strEndsWith (strToLower file_name) ".geometry.json" then acc
        else if acc.any (fun f => f.path == file_path) then acc
        else acc ++ [{ path := file_path, name := file_name
                       type := fileTypeFromExtension file_name
                       added_date := isoformatTs (fs.getctime file_path)
                       modified_date := isoformatTs (fs.getmtime file_path)
                       size := fs.getsize file_path }]
      else acc) []
  else []

/-- `Project.scan_and_update_files`: rebuild the three buckets from the
filesystem, sort each by name, stamp `modified_date`, and refresh the
context (the broadcast and prints have no modelled effect). -/
def scanAndUpdateFiles (p : Project) (fs : FS) (now : Nat) : Project :=
  let p1 := { p with
    files := ⟨sortByName (scanDir fs p.input_dir),
              sortByName (scanDir fs p.processed_dir),
              sortByName (scanDir fs p.output_dir)⟩
    modified_date := now }
  { p1 with context := updateFromProject p1 fs p1.context }

/-- `name.replace(" ", "_")`. -/
def replaceSpaces (s : String) : String := s.replace " " "_"

/-- `Project._generate_id`: the millisecond timestamp printed in hex,
keeping the last 8 characters. -/
def generateId (now : Nat) : String :=
  let cs := Nat.toDigits 16 now
  ⟨cs.drop (cs.length - 8)⟩

/-- `os.path.abspath` on the already-absolute, already-normalized paths
this model works with: the identity. -/
def abspath (s : String) : String := s

/-- `Project.__init__`.  The two `datetime.now()` calls (creation date
and id) are modelled at one instant `now`; `os.getcwd()` is the explicit
`cwd` argument. -/
def mkProject (name : String) (base_dir : Option String) (cwd : String)
    (now : Nat) (fs : FS) : Project :=
  let id := generateId now
  let base := match base_dir with
    | some b => abspath b
    | none => cwd
  let project_dir := pathJoin base (replaceSpaces name ++ "_" ++ id)
  let p0 : Project := {
    name := name, id := id
    created_date := now, modified_date := now
    base_dir := base, project_dir := project_dir
    input_dir := pathJoin project_dir "input"
    processed_dir := pathJoin project_dir "processed"
    output_dir := pathJoin project_dir "output"
    description := "", tags := []
    files := ⟨[], [], []⟩, processing_history := []
    context := ⟨"", [], [], [], ⟨"", "", [], ""⟩, "", [], [], ""⟩ }
  { p0 with context := contextInit p0 fs }

/-- The value `Project.to_dict` serializes into
`project_metadata.json`.  Timestamps are carried as their underlying
values (the ISO string round-trip is lossless), and `json.dump` followed
by `json.load` of the same file is the identity on this value. -/
structure Metadata where
  name : String
  id : String
  created_date : Nat
  modified_date : Nat
  description : String
  tags : List String
  dir_base : String
  dir_project : String
  dir_input : String
  dir_processed : String
  dir_output : String
  files : ProjFiles
  processing_history : List HistRecord
  req_input_description : String
  req_output_description : String
  req_features : List (String × String)
  req_further_requirements : String
  tech_stack : String
deriving DecidableEq, Repr

/-- `Project.to_dict`. -/
def toDict (p : Project) : Metadata := {
  name := p.name, id := p.id
  created_date := p.created_date, modified_date := p.modified_date
  description := p.description, tags := p.tags
  dir_base := p.base_dir, dir_project := p.project_dir
  dir_input := p.input_dir, dir_processed := p.processed_dir
  dir_output := p.output_dir
  files := p.files, processing_history := p.processing_history
  req_input_description := p.context.requirements.input_description
  req_output_description := p.context.requirements.output_description
  req_features := p.context.requirements.features
  req_further_requirements := p.context.requirements.further_requirements
  tech_stack := p.context.tech_stack }

/-- `Project.save_metadata`: dump `to_dict()` to
`project_metadata.json`; the later `json.load` of that file returns an
equal value, so the written metadata is the function's result. -/
def saveMetadata (p : Project) : Metadata := toDict p

/-- `Project.load_from_metadata`: construct a fresh project, then
overwrite its fields from the metadata, rebuild the context, restore the
requirements and tech stack, and run a final `update_from_project`. -/
def loadFromMetadata (m : Metadata) (fs : FS) (cwd : String) (now : Nat) : Project :=
  let project0 := mkProject m.name (some m.dir_base) cwd now fs
  let project_dir := pathJoin project0.base_dir (replaceSpaces project0.name ++ "_" ++ m.id)
  let project1 := { project0 with
    id := m.id
    project_dir := project_dir
    input_dir := pathJoin project_dir "input"
    processed_dir := pathJoin project_dir "processed"
    output_dir := pathJoin project_dir "output"
    created_date := m.created_date
    modified_date := m.modified_date
    description := m.description
    tags := m.tags
    files := m.files
    processing_history := m.processing_history }
  let ctx0 := contextInit project1 fs
  let ctx1 := { ctx0 with
    requirements := ⟨m.req_input_description, m.req_output_description,
                     m.req_features, m.req_further_requirements⟩
    tech_stack := m.tech_stack }
  { project1 with context := updateFromProject project1 fs ctx1 }

/-- `self.files[file_type]`, guarded by `file_type not in self.files`. -/
def bucketFiles (p : Project) (file_type : String) : Option (List FileRec) :=
  if file_type = "input" then some p.files.input
  else if file_type = "processed" then some p.files.processed
  else if file_type = "output" then some p.files.output
  else none

/-- The `dest_dir_map` lookups of `create_file` and `rename_file`. -/
def destDirMap (p : Project) (file_type : String) : Option String :=
  if file_type = "input" then some p.input_dir
  else if file_type = "processed" then some p.processed_dir
  else if file_type = "output" then some p.output_dir
  else none

/-- `Project.add_file`: validate the bucket, require the file on disk,
short-circuit when the path is already tracked, otherwise refresh via a
full rescan. -/
def addFile (p : Project) (fs : FS) (file_path file_type : String) (now : Nat) :
    Bool × Project :=
  match bucketFiles p file_type with
  | none => (false, p)
  | some recs =>
    if !fs.existsPath file_path then (false, p)
    else if recs.any (fun f => f.path == file_path) then (true, p)
    else
      let p1 := scanAndUpdateFiles p fs now
      (true, { p1 with modified_date := now })

/-- The `while os.path.exists(new_file_path)` loop of
`Project.create_file`, with explicit fuel standing in for the unbounded
loop (`none` models non-termination, impossible on a finite disk). -/
def findFreeName (fs : FS) (dest_dir orig ext current : String)
    (counter : Nat) : Nat → Option String
  | 0 => none
  | fuel + 1 =>
    if fs.existsPath (pathJoin dest_dir current) then
      findFreeName fs dest_dir orig ext (orig ++ "_" ++ Nat.repr counter ++ ext)
        (counter + 1) fuel
    else some current

/-- `Project.create_file`: pick a collision-free name, write the
content there, register the file through `add_file`, and return the
final path together with the updated project and filesystem states. -/
def createFile (p : Project) (fs : FS) (file_name file_type content : String)
    (now fuel : Nat) : Option String × Project × FS :=
  match bucketFiles p file_type with
  | none => (none, p, fs)
  | some _ =>
    match destDirMap p file_type with
    | none => (none, p, fs)
    | some dest_dir =>
      let se := splitext file_name
      match findFreeName fs dest_dir se.1 se.2 file_name 1 fuel with
      | none => (none, p, fs)
      | some current_file_name =>
        let new_file_path := pathJoin dest_dir current_file_name
        let fs1 := fs.write dest_dir current_file_name content now
        let p1 := (addFile p fs1 new_file_path file_type now).2
        (some new_file_path, p1, fs1)

/-- `Project.rename_file`: find the first tracked record with the given
name, rescan if its path is stale, reject an existing destination, and
otherwise rename on disk and rescan. -/
def renameFile (p : Project) (fs : FS) (file_name new_name file_type : String)
    (now : Nat) : Bool × Project × FS :=
  match bucketFiles p file_type with
  | none => (false, p, fs)
  | some recs =>
    match destDirMap p file_type with
    | none => (false, p, fs)
    | some dest_dir =>
      match recs.find? (fun f => f.name == file_name) with
      | none => (false, p, fs)
      | some file_info =>
        let old_path := file_info.path
        let finish := fun (pcur : Project) =>
          let new_path := pathJoin dest_dir new_name
          if fs.existsPath new_path then (false, pcur, fs)
          else
            let fs1 := fs.rename old_path dest_dir new_name
            let p2 := scanAndUpdateFiles pcur fs1 now
            (true, { p2 with modified_date := now }, fs1)
        if fs.existsPath old_path then finish p
        else
          let pScan := scanAndUpdateFiles p fs now
          if ((bucketFiles pScan file_type).getD []).any
              (fun f => f.name == file_name && f.path == old_path) then
            finish pScan
          else (false, pScan, fs)

/-! ## Theorems

First, general lemmas about the loops of `_apply_changes`, shared by the
claims about `DiagramAgent`. -/

/-- The three entity categories `_apply_changes` treats by identical
code blocks. -/
inductive EntCat where
  | classes
  | actors
  | useCases
deriving DecidableEq, Repr

/-- The array of a document addressed by an entity category. -/
def Diagram.cat (d : Diagram) : EntCat → Option (List Elem)
  | .classes => d.classes
  | .actors => d.actors
  | .useCases => d.useCases

/-- The change dict of a change-set addressed by an entity category. -/
def ChangeData.cat (cd : ChangeData) : EntCat → Option CatChanges
  | .classes => cd.classes
  | .actors => cd.actors
  | .useCases => cd.useCases

theorem applyChanges_cat (d : Diagram) (cd : ChangeData) (k : EntCat) :
    (applyChanges d ⟨some cd⟩).cat k = (applyEntity (cd.cat k) (d.cat k)).1 := by
  cases k <;> rfl

theorem mem_addFold {x : Elem} :
    ∀ (adds base : List Elem), x ∈ addFold base adds → x ∈ base ∨ x ∈ adds := by
  intro adds
  induction adds with
  | nil => intro base h; exact Or.inl h
  | cons c cs ih =>
    intro base h
    have h' : x ∈ addFold (if c.name ∈ base.map Elem.name then base else base ++ [c]) cs := h
    rcases ih _ h' with hb | hc
    · by_cases hn : c.name ∈ base.map Elem.name
      · rw [if_pos hn] at hb
        exact Or.inl hb
      · rw [if_neg hn] at hb
        rcases List.mem_append.mp hb with hb' | hb'
        · exact Or.inl hb'
        · exact Or.inr (by rw [List.mem_singleton.mp hb']; exact List.mem_cons_self c cs)
    · exact Or.inr (List.mem_cons_of_mem c hc)

/-- The guarded append loop leaves the starting array as an unchanged
prefix and only ever appends candidates whose name is absent from the
starting array. -/
theorem addFold_extra :
    ∀ (adds base : List Elem), ∃ extra,
      addFold base adds = base ++ extra ∧
      ∀ c ∈ extra, c ∈ adds ∧ c.name ∉ base.map Elem.name := by
  intro adds
  induction adds with
  | nil => exact fun base => ⟨[], by simp [addFold]⟩
  | cons c cs ih =>
    intro base
    by_cases hn : c.name ∈ base.map Elem.name
    · obtain ⟨extra, heq, hprop⟩ := ih base
      refine ⟨extra, ?_, ?_⟩
      · show addFold (if c.name ∈ base.map Elem.name then base else base ++ [c]) cs = _
        rw [if_pos hn]; exact heq
      · exact fun e he => ⟨List.mem_cons_of_mem c (hprop e he).1, (hprop e he).2⟩
    · obtain ⟨extra, heq, hprop⟩ := ih (base ++ [c])
      refine ⟨c :: extra, ?_, ?_⟩
      · show addFold (if c.name ∈ base.map Elem.name then base else base ++ [c]) cs = _
        rw [if_neg hn, heq]
        simp
      · intro e he
        rcases List.mem_cons.mp he with rfl | he'
        · exact ⟨List.mem_cons_self e cs, hn⟩
        · refine ⟨List.mem_cons_of_mem c (hprop e he').1, fun hmem => ?_⟩
          have := (hprop e he').2
          exact this (by simpa using Or.inl hmem)

/-- The guarded append loop preserves name-distinctness. -/
theorem addFold_nodup :
    ∀ (adds base : List Elem), (base.map Elem.name).Nodup →
      ((addFold base adds).map Elem.name).Nodup := by
  intro adds
  induction adds with
  | nil => exact fun base h => h
  | cons c cs ih =>
    intro base hbase
    show (((addFold (if c.name ∈ base.map Elem.name then base else base ++ [c]) cs)).map
      Elem.name).Nodup
    by_cases hn : c.name ∈ base.map Elem.name
    · rw [if_pos hn]; exact ih base hbase
    · rw [if_neg hn]
      refine ih (base ++ [c]) ?_
      rw [List.map_append, List.map_singleton]
      exact List.Nodup.append hbase (List.nodup_singleton _)
        (by simpa [List.disjoint_singleton] using hn)

theorem mem_removeRelFold {x : RelElem} :
    ∀ (rs : List RemCrit) (l : List RelElem), x ∈ removeRelFold l rs →
      x ∈ l ∧ ∀ crit ∈ rs, keepRel crit x = true := by
  intro rs
  induction rs with
  | nil => exact fun l h => ⟨h, by simp⟩
  | cons crit crits ih =>
    intro l h
    have h' : x ∈ removeRelFold (l.filter (keepRel crit)) crits := h
    obtain ⟨hmem, hall⟩ := ih _ h'
    obtain ⟨hl, hkeep⟩ := List.mem_filter.mp hmem
    refine ⟨hl, fun c hc => ?_⟩
    rcases List.mem_cons.mp hc with rfl | hc'
    · exact hkeep
    · exact hall c hc'

/-- Names already in the array stay in it: the guarded append loop only
grows its accumulator. -/
theorem addFold_names_subset (adds base : List Elem) :
    base.map Elem.name ⊆ (addFold base adds).map Elem.name := by
  obtain ⟨extra, heq, -⟩ := addFold_extra adds base
  rw [heq, List.map_append]
  exact List.subset_append_left _ _

/-- After the loop, every candidate's name occurs in the array: a
skipped candidate's name was already there, an appended one brought it. -/
theorem addFold_name_mem :
    ∀ (adds base : List Elem), ∀ c ∈ adds, c.name ∈ (addFold base adds).map Elem.name := by
  intro adds
  induction adds with
  | nil => simp
  | cons a as ih =>
    intro base c hc
    show c.name ∈ ((addFold (if a.name ∈ base.map Elem.name then base else base ++ [a]) as).map
      Elem.name)
    rcases List.mem_cons.mp hc with rfl | hc'
    · by_cases hn : c.name ∈ base.map Elem.name
      · rw [if_pos hn]
        exact addFold_names_subset as base hn
      · rw [if_neg hn]
        exact addFold_names_subset as (base ++ [c]) (by simp)
    · by_cases hn : a.name ∈ base.map Elem.name
      · rw [if_pos hn]; exact ih base c hc'
      · rw [if_neg hn]; exact ih (base ++ [a]) c hc'

theorem mem_relAddFold {x : RelElem} :
    ∀ (adds base : List RelElem), x ∈ relAddFold base adds → x ∈ base ∨ x ∈ adds := by
  intro adds
  induction adds with
  | nil => exact fun base h => Or.inl h
  | cons c cs ih =>
    intro base h
    have h' : x ∈ relAddFold (if relDup base c then base else base ++ [c]) cs := h
    rcases ih _ h' with hb | hc
    · by_cases hdup : relDup base c
      · rw [if_pos hdup] at hb
        exact Or.inl hb
      · rw [if_neg hdup] at hb
        rcases List.mem_append.mp hb with hb' | hb'
        · exact Or.inl hb'
        · exact Or.inr (by simpa using Or.inl (List.mem_singleton.mp hb'))
    · exact Or.inr (List.mem_cons_of_mem c hc)

/-- The remove phase of one entity category: with no `remove` key the
array is untouched, otherwise it is filtered by name. -/
def removePhase (cc : CatChanges) (l : List Elem) : List Elem :=
  match cc.remove with
  | none => l
  | some rs => l.filter (fun e => !nameRemoved rs e)

theorem applyEntity_some_add (cc : CatChanges) (l adds : List Elem)
    (hadd : cc.add = some adds) :
    (applyEntity (some cc) (some l)).1 = some (addFold (removePhase cc l) adds) := by
  obtain ⟨rem, add⟩ := cc
  cases hadd
  cases rem <;> rfl

/-- Claim C2: in each entity category, a candidate of the add list whose
name is already taken is skipped and a fresh-named candidate is appended
at the end: the (possibly just-filtered) original array is an unchanged
prefix of the result, everything after it comes from the add list and
carries a name the original array did not have, and every candidate's
name is present in the result (so adds never overwrite an existing
element). -/
theorem applyChanges_add_skip_duplicate
    (d : Diagram) (cd : ChangeData) (k : EntCat) (cc : CatChanges)
    (l adds : List Elem)
    (hd : d.cat k = some l) (hcd : cd.cat k = some cc) (hadd : cc.add = some adds) :
    ∃ extra,
      (applyChanges d ⟨some cd⟩).cat k = some (removePhase cc l ++ extra) ∧
      (∀ c ∈ extra, c ∈ adds ∧ c.name ∉ (removePhase cc l).map Elem.name) ∧
      (∀ c ∈ adds, c.name ∈ (removePhase cc l ++ extra).map Elem.name) := by
  obtain ⟨extra, heq, hprop⟩ := addFold_extra adds (removePhase cc l)
  refine ⟨extra, ?_, hprop, ?_⟩
  · rw [applyChanges_cat, hcd, hd, applyEntity_some_add cc l adds hadd, heq]
  · intro c hc
    rw [← heq]
    exact addFold_name_mem adds (removePhase cc l) c hc

/-- Witness for C2, the spec's own scenario: `current` has one class
named `"User"`, the change-set adds a class named `"User"` with
different attributes; the merge keeps exactly the original element. -/
theorem applyChanges_add_skip_duplicate_witness :
    ((⟨some [⟨some "User", []⟩], none, none, none, []⟩ : Diagram).cat .classes =
        some [⟨some "User", []⟩] ∧
      (⟨some ⟨none, some [⟨some "User", [("attributes", "x")]⟩]⟩,
        none, none, none⟩ : ChangeData).cat .classes =
        some ⟨none, some [⟨some "User", [("attributes", "x")]⟩]⟩ ∧
      (⟨none, some [⟨some "User", [("attributes", "x")]⟩]⟩ : CatChanges).add =
        some [⟨some "User", [("attributes", "x")]⟩]) ∧
    (∃ extra,
      (applyChanges ⟨some [⟨some "User", []⟩], none, none, none, []⟩
          ⟨some ⟨some ⟨none, some [⟨some "User", [("attributes", "x")]⟩]⟩,
            none, none, none⟩⟩).cat .classes =
        some (removePhase ⟨none, some [⟨some "User", [("attributes", "x")]⟩]⟩
          [⟨some "User", []⟩] ++ extra) ∧
      (∀ c ∈ extra, c ∈ [⟨some "User", [("attributes", "x")]⟩] ∧
        c.name ∉ (removePhase ⟨none, some [⟨some "User", [("attributes", "x")]⟩]⟩
          [⟨some "User", []⟩]).map Elem.name) ∧
      (∀ c ∈ [(⟨some "User", [("attributes", "x")]⟩ : Elem)],
        c.name ∈ (removePhase ⟨none, some [⟨some "User", [("attributes", "x")]⟩]⟩
          [⟨some "User", []⟩] ++ extra).map Elem.name)) :=
  ⟨⟨by decide, by decide, by decide⟩,
    applyChanges_add_skip_duplicate _ _ .classes _ _ _ (by decide) (by decide) (by decide)⟩

/-- Name-distinctness survives filtering. -/
theorem filter_names_nodup (l : List Elem) (f : Elem → Bool)
    (h : (l.map Elem.name).Nodup) : ((l.filter f).map Elem.name).Nodup :=
  List.Nodup.sublist (List.Sublist.map Elem.name (List.filter_sublist l)) h

/-- One entity category preserves name-distinctness, whatever the
change dict. -/
theorem applyEntity_nodup (cc : Option CatChanges) (cur : Option (List Elem))
    (h : ∀ l, cur = some l → (l.map Elem.name).Nodup) :
    ∀ l', (applyEntity cc cur).1 = some l' → (l'.map Elem.name).Nodup := by
  intro l' h'
  rcases cc with _ | ⟨rem, add⟩
  · exact h l' h'
  · rcases cur with _ | l
    · rcases rem with _ | rs <;> rcases add with _ | adds <;>
        simp only [applyEntity] at h'
      · exact absurd h' (by simp)
      · cases h'
        exact addFold_nodup adds [] (by simp)
      · exact absurd h' (by simp)
      · cases h'
        exact addFold_nodup adds [] (by simp)
    · have hl := h l rfl
      rcases rem with _ | rs <;> rcases add with _ | adds <;>
        simp only [applyEntity] at h'
      · cases h'
        exact hl
      · cases h'
        exact addFold_nodup adds l hl
      · cases h'
        exact filter_names_nodup l _ hl
      · cases h'
        exact addFold_nodup adds _ (filter_names_nodup l _ hl)

/-- Claim C10: if an entity category of the input document has pairwise
distinct names, so does that category of the document `_apply_changes`
returns — even when the change-set's add list repeats a name, because
the set of existing names is recomputed before each append. -/
theorem applyChanges_names_nodup (d : Diagram) (ch : Changes) (k : EntCat)
    (h : ∀ l, d.cat k = some l → (l.map Elem.name).Nodup) :
    ∀ l', (applyChanges d ch).cat k = some l' → (l'.map Elem.name).Nodup := by
  obtain ⟨chs⟩ := ch
  rcases chs with _ | cd
  · exact h
  · intro l' h'
    rw [applyChanges_cat] at h'
    exact applyEntity_nodup (cd.cat k) (d.cat k) h l' h'

/-- Witness for C10: a document whose classes are `X`, `Y` and a
change-set adding two classes both named `Z` still yields distinct
names (only the first `Z` lands). -/
theorem applyChanges_names_nodup_witness :
    (∀ l, (⟨some [⟨some "X", []⟩, ⟨some "Y", []⟩], none, none, none, []⟩ : Diagram).cat
        .classes = some l → (l.map Elem.name).Nodup) ∧
    (∀ l', (applyChanges ⟨some [⟨some "X", []⟩, ⟨some "Y", []⟩], none, none, none, []⟩
        (classesOnly ⟨none, some [⟨some "Z", [("a", "1")]⟩, ⟨some "Z", [("b", "2")]⟩]⟩)).cat
        .classes = some l' → (l'.map Elem.name).Nodup) :=
  ⟨by decide,
    applyChanges_names_nodup _ _ .classes (by decide)⟩

theorem applyChanges_relationships (d : Diagram) (cd : ChangeData) :
    (applyChanges d ⟨some cd⟩).relationships =
      (applyRel cd.relationships d.relationships).1 := rfl

/-- Counterexample to claim C1 as stated: the claim quantifies over
*every* change-set whose removal list matches the stored relationship,
but a change-set that also re-adds the same relationship leaves it in
the resulting document — the removal does fire (cross-convention), yet
the add loop appends the relationship back. -/
theorem applyChanges_remove_readd_counterexample :
    (applyChanges
      ⟨none, none, none,
        some [⟨some "A", some "B", none, none, some "association", []⟩], []⟩
      (relOnly ⟨some [⟨some "A", some "B", some "association"⟩],
                some [⟨some "A", some "B", none, none, some "association", []⟩]⟩)).relationships
      = some [⟨some "A", some "B", none, none, some "association", []⟩] := by decide

/-- Claim C1 as amended: a relationship stored under the
`fromClass`/`toClass` convention is removed from the resulting document
by any matching `{from, to, type}` criterion — the removal filter checks
the criterion's `from`/`to` against the stored `fromClass`/`toClass`,
bridging the naming mismatch — provided the change-set's relationships
add list does not itself re-add that relationship. -/
theorem applyChanges_remove_crossConvention
    (d : Diagram) (cd : ChangeData) (rc : RelChanges)
    (rels : List RelElem) (crits : List RemCrit) (r : RelElem) (crit : RemCrit)
    (hd : d.relationships = some rels) (hcd : cd.relationships = some rc)
    (hrem : rc.remove = some crits) (_hr : r ∈ rels) (hcrit : crit ∈ crits)
    (_hstored1 : r.fromClass.isSome) (_hstored2 : r.toClass.isSome)
    (hfrom : crit.fromKey = r.fromClass) (hto : crit.toKey = r.toClass)
    (htype : crit.type = r.type)
    (hnoadd : ∀ adds, rc.add = some adds → r ∉ adds) :
    r ∉ ((applyChanges d ⟨some cd⟩).relationships).getD [] := by
  have hkeep : keepRel crit r = false := by
    simp [keepRel, hfrom, hto, htype]
  rw [applyChanges_relationships, hcd, hd]
  obtain ⟨rem, add⟩ := rc
  cases hrem
  have hnotFiltered : r ∉ removeRelFold rels crits := by
    intro hmem
    obtain ⟨-, hall⟩ := mem_removeRelFold crits rels hmem
    rw [hall crit hcrit] at hkeep
    exact Bool.true_eq_false.mp hkeep
  rcases add with _ | adds
  · intro hmem
    exact hnotFiltered (by simpa [applyRel] using hmem)
  · intro hmem
    have hmem' : r ∈ relAddFold (removeRelFold rels crits) adds := by
      simpa [applyRel] using hmem
    rcases mem_relAddFold adds (removeRelFold rels crits) hmem' with h1 | h2
    · exact hnotFiltered h1
    · exact hnoadd adds rfl h2

/-- Witness for the amended C1, the spec's own removal scenario:
`current.relationships = [{fromClass:"A", toClass:"B",
type:"association"}]` and a removal request `{from:"A", to:"B",
type:"association"}` with no adds. -/
theorem applyChanges_remove_crossConvention_witness :
    ((⟨none, none, none,
        some [⟨some "A", some "B", none, none, some "association", []⟩], []⟩ :
        Diagram).relationships =
      some [⟨some "A", some "B", none, none, some "association", []⟩] ∧
     (⟨some [⟨some "A", some "B", some "association"⟩], none⟩ : RelChanges).remove =
      some [⟨some "A", some "B", some "association"⟩]) ∧
    (⟨some "A", some "B", none, none, some "association", []⟩ : RelElem) ∉
      ((applyChanges
        ⟨none, none, none,
          some [⟨some "A", some "B", none, none, some "association", []⟩], []⟩
        (relOnly ⟨some [⟨some "A", some "B", some "association"⟩], none⟩)).relationships).getD
        [] :=
  ⟨⟨by decide, by decide⟩,
    applyChanges_remove_crossConvention
      ⟨none, none, none,
        some [⟨some "A", some "B", none, none, some "association", []⟩], []⟩
      ⟨none, none, none, some ⟨some [⟨some "A", some "B", some "association"⟩], none⟩⟩
      ⟨some [⟨some "A", some "B", some "association"⟩], none⟩
      [⟨some "A", some "B", none, none, some "association", []⟩]
      [⟨some "A", some "B", some "association"⟩]
      ⟨some "A", some "B", none, none, some "association", []⟩
      ⟨some "A", some "B", some "association"⟩
      (by decide) (by decide) (by decide) (by decide) (by decide) (by decide) (by decide)
      (by decide) (by decide) (by decide)
      (by intro adds h; cases h)⟩

/-- Counterexample to claim C3 as stated: the claim predicts that an
existing relationship `{fromClass:"A", toClass:"B", type:"t"}` makes the
candidate `{from:"A", to:"B", type:"t"}` a skipped duplicate, but the
duplicate check compares each naming convention only with itself
(`fromClass` with `fromClass`, `from` with `from`), so the candidate is
appended. -/
theorem relAdd_crossConvention_appended_counterexample :
    (applyChanges
      ⟨none, none, none, some [⟨some "A", some "B", none, none, some "t", []⟩], []⟩
      (relOnly ⟨none, some [⟨none, none, some "A", some "B", some "t", []⟩]⟩)).relationships
      = some [⟨some "A", some "B", none, none, some "t", []⟩,
              ⟨none, none, some "A", some "B", some "t", []⟩] := by decide

/-- Claim C3 as amended: a relationship candidate is skipped if and only
if some existing relationship agrees with it on `fromClass`, `toClass`
and `type`, or agrees with it on `from`, `to` and `type` — the same
naming convention on both sides, a missing field comparing equal only to
a missing field; a cross-convention match does not cause a skip. -/
theorem applyChanges_relAdd_sameConvention_dup
    (d : Diagram) (cd : ChangeData) (rc : RelChanges)
    (rels : List RelElem) (c : RelElem)
    (hd : d.relationships = some rels) (hcd : cd.relationships = some rc)
    (hrem : rc.remove = none) (hadd : rc.add = some [c]) :
    (applyChanges d ⟨some cd⟩).relationships =
      some (if relDup rels c then rels else rels ++ [c]) ∧
    (relDup rels c = true ↔ ∃ r ∈ rels,
      (r.fromClass = c.fromClass ∧ r.toClass = c.toClass ∧ r.type = c.type) ∨
      (r.fromKey = c.fromKey ∧ r.toKey = c.toKey ∧ r.type = c.type)) := by
  constructor
  · rw [applyChanges_relationships, hcd, hd]
    obtain ⟨rem, add⟩ := rc
    cases hrem
    cases hadd
    rfl
  · simp [relDup, List.any_eq_true, and_assoc]

/-- Witness for the amended C3: the candidate `{from:"A", to:"B",
type:"t"}` against the stored `{fromClass:"A", toClass:"B", type:"t"}`:
no same-convention match exists, so it is appended. -/
theorem applyChanges_relAdd_sameConvention_dup_witness :
    ((⟨none, none, none, some [⟨some "A", some "B", none, none, some "t", []⟩], []⟩ :
        Diagram).relationships = some [⟨some "A", some "B", none, none, some "t", []⟩]) ∧
    ((applyChanges
        ⟨none, none, none, some [⟨some "A", some "B", none, none, some "t", []⟩], []⟩
        ⟨some ⟨none, none, none,
          some ⟨none, some [⟨none, none, some "A", some "B", some "t", []⟩]⟩⟩⟩).relationships =
      some (if relDup [⟨some "A", some "B", none, none, some "t", []⟩]
              ⟨none, none, some "A", some "B", some "t", []⟩ then
              [⟨some "A", some "B", none, none, some "t", []⟩]
            else [⟨some "A", some "B", none, none, some "t", []⟩] ++
              [⟨none, none, some "A", some "B", some "t", []⟩]) ∧
      (relDup [⟨some "A", some "B", none, none, some "t", []⟩]
          ⟨none, none, some "A", some "B", some "t", []⟩ = true ↔
        ∃ r ∈ [(⟨some "A", some "B", none, none, some "t", []⟩ : RelElem)],
          (r.fromClass = (none : Option String) ∧ r.toClass = (none : Option String) ∧
            r.type = some "t") ∨
          (r.fromKey = some "A" ∧ r.toKey = some "B" ∧ r.type = some "t"))) :=
  ⟨by decide,
    applyChanges_relAdd_sameConvention_dup
      ⟨none, none, none, some [⟨some "A", some "B", none, none, some "t", []⟩], []⟩
      ⟨none, none, none, some ⟨none, some [⟨none, none, some "A", some "B", some "t", []⟩]⟩⟩
      ⟨none, some [⟨none, none, some "A", some "B", some "t", []⟩]⟩
      [⟨some "A", some "B", none, none, some "t", []⟩]
      ⟨none, none, some "A", some "B", some "t", []⟩
      (by decide) (by decide) (by decide) (by decide)⟩

/-- Counterexample to claim C4 as stated: an add-only change-set *does*
mutate the `current_diagram` argument.  `modified = current_diagram.copy()`
is a shallow copy, so `modified["classes"]` is the same list object as
`current_diagram["classes"]`, and the add loop's `append` pushes the new
class into the caller's document as well. -/
theorem applyChanges_mutates_argument_counterexample :
    applyChangesFinalArg
      ⟨some [⟨some "User", []⟩], none, none, none, []⟩
      (classesOnly ⟨none, some [⟨some "Admin", []⟩]⟩) ≠
      ⟨some [⟨some "User", []⟩], none, none, none, []⟩ := by decide

/-- `True` exactly when a per-category change dict has no `add` key. -/
def catNoAdd : Option CatChanges → Bool
  | none => true
  | some c => c.add.isNone

/-- `True` exactly when the relationships change dict has no `add` key. -/
def relNoAdd : Option RelChanges → Bool
  | none => true
  | some c => c.add.isNone

/-- `True` when the change-set contains no add list in any category
(or no `changes` envelope at all). -/
def hasNoAdds (ch : Changes) : Bool :=
  match ch.changes with
  | none => true
  | some cd =>
    catNoAdd cd.classes && catNoAdd cd.actors && catNoAdd cd.useCases &&
      relNoAdd cd.relationships

theorem applyEntity_snd_of_noAdd (cc : Option CatChanges) (cur : Option (List Elem))
    (h : catNoAdd cc = true) : (applyEntity cc cur).2 = cur := by
  rcases cc with _ | ⟨rem, add⟩
  · rfl
  · rcases add with _ | adds
    · rcases rem with _ | rs <;> rcases cur with _ | l <;> rfl
    · simp [catNoAdd] at h

theorem applyRel_snd_of_noAdd (rc : Option RelChanges) (cur : Option (List RelElem))
    (h : relNoAdd rc = true) : (applyRel rc cur).2 = cur := by
  rcases rc with _ | ⟨rem, add⟩
  · rfl
  · rcases add with _ | adds
    · rcases rem with _ | rs <;> rcases cur with _ | l <;> rfl
    · simp [relNoAdd] at h

/-- Claim C4 as amended: `_apply_changes` returns a fresh top-level
document and, for a change-set containing no add entries (in particular
an empty change-set or one with an absent `changes` envelope, and any
remove-only change-set), it never mutates its `current_diagram`
argument; an add into a category array that the input already owned and
that no removal reassigned, however, shows through to the argument via
the shallow copy. -/
theorem applyChanges_noAdds_preserves_argument (d : Diagram) (ch : Changes)
    (h : hasNoAdds ch = true) : applyChangesFinalArg d ch = d := by
  obtain ⟨chs⟩ := ch
  rcases chs with _ | cd
  · rfl
  · simp only [hasNoAdds, Bool.and_eq_true] at h
    obtain ⟨⟨⟨h1, h2⟩, h3⟩, h4⟩ := h
    show ({ d with
      classes := (applyEntity cd.classes d.classes).2
      actors := (applyEntity cd.actors d.actors).2
      useCases := (applyEntity cd.useCases d.useCases).2
      relationships := (applyRel cd.relationships d.relationships).2 } : Diagram) = d
    rw [applyEntity_snd_of_noAdd cd.classes d.classes h1,
        applyEntity_snd_of_noAdd cd.actors d.actors h2,
        applyEntity_snd_of_noAdd cd.useCases d.useCases h3,
        applyRel_snd_of_noAdd cd.relationships d.relationships h4]

/-- Witness for the amended C4: a remove-only change-set leaves the
input document untouched. -/
theorem applyChanges_noAdds_preserves_argument_witness :
    hasNoAdds (classesOnly ⟨some ["User"], none⟩) = true ∧
    applyChangesFinalArg
      ⟨some [⟨some "User", []⟩], none, none, none, []⟩
      (classesOnly ⟨some ["User"], none⟩) =
      ⟨some [⟨some "User", []⟩], none, none, none, []⟩ :=
  ⟨by decide,
    applyChanges_noAdds_preserves_argument
      ⟨some [⟨some "User", []⟩], none, none, none, []⟩
      (classesOnly ⟨some ["User"], none⟩) (by decide)⟩

/-- Claim C5: saving the metadata and loading it back reproduces every
persisted Project field — name, id, both dates, description, tags, all
three file buckets, the processing history, the four requirements
fields and the tech stack — while the ephemeral generated-content
caches of the context come back empty (they are not persisted). -/
theorem metadata_roundtrip (p : Project) (fs : FS) (cwd : String) (now : Nat) :
    (loadFromMetadata (saveMetadata p) fs cwd now).name = p.name ∧
    (loadFromMetadata (saveMetadata p) fs cwd now).id = p.id ∧
    (loadFromMetadata (saveMetadata p) fs cwd now).created_date = p.created_date ∧
    (loadFromMetadata (saveMetadata p) fs cwd now).modified_date = p.modified_date ∧
    (loadFromMetadata (saveMetadata p) fs cwd now).description = p.description ∧
    (loadFromMetadata (saveMetadata p) fs cwd now).tags = p.tags ∧
    (loadFromMetadata (saveMetadata p) fs cwd now).files = p.files ∧
    (loadFromMetadata (saveMetadata p) fs cwd now).processing_history =
      p.processing_history ∧
    (loadFromMetadata (saveMetadata p) fs cwd now).context.requirements =
      p.context.requirements ∧
    (loadFromMetadata (saveMetadata p) fs cwd now).context.tech_stack =
      p.context.tech_stack ∧
    (loadFromMetadata (saveMetadata p) fs cwd now).context.generated_text_doc = [] ∧
    (loadFromMetadata (saveMetadata p) fs cwd now).context.generated_diagram = [] ∧
    (loadFromMetadata (saveMetadata p) fs cwd now).context.prototype_code = "" :=
  ⟨rfl, rfl, rfl, rfl, rfl, rfl, rfl, rfl, rfl, rfl, rfl, rfl, rfl⟩

theorem mem_insFile {z x : FileRec} :
    ∀ (l : List FileRec), z ∈ insFile x l → z = x ∨ z ∈ l := by
  intro l
  induction l with
  | nil => intro h; exact Or.inl (List.mem_singleton.mp h)
  | cons y ys ih =>
    intro h
    rw [insFile] at h
    by_cases hxy : strLe x.name y.name = true
    · rw [if_pos hxy] at h
      rcases List.mem_cons.mp h with rfl | h'
      · exact Or.inl rfl
      · exact Or.inr h'
    · rw [if_neg hxy] at h
      rcases List.mem_cons.mp h with rfl | h'
      · exact Or.inr (List.mem_cons_self _ _)
      · rcases ih h' with h'' | h''
        · exact Or.inl h''
        · exact Or.inr (List.mem_cons_of_mem _ h'')

theorem charListLe_total : ∀ as bs : List Char,
    charListLe as bs = true ∨ charListLe bs as = true := by
  intro as
  induction as with
  | nil => intro bs; exact Or.inl rfl
  | cons a as ih =>
    intro bs
    cases bs with
    | nil => exact Or.inr rfl
    | cons b bs =>
      rcases Nat.lt_trichotomy a.toNat b.toNat with h | h | h
      · exact Or.inl (by simp [charListLe, h])
      · rcases ih bs with h' | h'
        · exact Or.inl (by simp [charListLe, h, h'])
        · exact Or.inr (by simp [charListLe, h.symm, h'])
      · exact Or.inr (by simp [charListLe, h])

theorem charListLe_trans : ∀ as bs cs : List Char,
    charListLe as bs = true → charListLe bs cs = true → charListLe as cs = true := by
  intro as
  induction as with
  | nil => intro bs cs _ _; rfl
  | cons a as ih =>
    intro bs cs h1 h2
    cases bs with
    | nil => exact absurd h1 (by simp [charListLe])
    | cons b bs =>
      cases cs with
      | nil => exact absurd h2 (by simp [charListLe])
      | cons c cs =>
        simp only [charListLe, Bool.or_eq_true, Bool.and_eq_true,
          decide_eq_true_eq] at h1 h2 ⊢
        rcases h1 with h1 | ⟨h1e, h1le⟩
        · rcases h2 with h2 | ⟨h2e, h2le⟩
          · exact Or.inl (by omega)
          · exact Or.inl (by omega)
        · rcases h2 with h2 | ⟨h2e, h2le⟩
          · exact Or.inl (by omega)
          · exact Or.inr ⟨by omega, ih bs cs h1le h2le⟩

theorem strLe_trans {a b c : String} (h1 : strLe a b = true) (h2 : strLe b c = true) :
    strLe a c = true := charListLe_trans a.data b.data c.data h1 h2

theorem strLe_total (a b : String) : strLe a b = true ∨ strLe b a = true :=
  charListLe_total a.data b.data

theorem insFile_sorted (x : FileRec) :
    ∀ (l : List FileRec), l.Pairwise (fun a b => strLe a.name b.name = true) →
      (insFile x l).Pairwise (fun a b => strLe a.name b.name = true) := by
  intro l
  induction l with
  | nil => intro _; simp [insFile]
  | cons y ys ih =>
    intro h
    rw [List.pairwise_cons] at h
    obtain ⟨hy, hys⟩ := h
    rw [insFile]
    by_cases hxy : strLe x.name y.name = true
    · rw [if_pos hxy]
      refine List.Pairwise.cons ?_ (List.Pairwise.cons hy hys)
      intro z hz
      rcases List.mem_cons.mp hz with rfl | hz'
      · exact hxy
      · exact strLe_trans hxy (hy z hz')
    · rw [if_neg hxy]
      refine List.Pairwise.cons ?_ (ih hys)
      intro z hz
      rcases mem_insFile ys hz with rfl | hz'
      · rcases strLe_total z.name y.name with h' | h'
        · exact absurd h' hxy
        · exact h'
      · exact hy z hz'

theorem sortByName_sorted (l : List FileRec) :
    (sortByName l).Pairwise (fun a b => strLe a.name b.name = true) := by
  induction l with
  | nil => simp [sortByName]
  | cons x xs ih => exact insFile_sorted x (sortByName xs) ih

/-- Claim C8: rescanning with an unchanged filesystem is idempotent —
the second scan returns exactly the files collections of the first, and
each bucket is in ascending name order. -/
theorem scanAndUpdateFiles_idempotent (p : Project) (fs : FS) (now1 now2 : Nat) :
    (scanAndUpdateFiles (scanAndUpdateFiles p fs now1) fs now2).files =
      (scanAndUpdateFiles p fs now1).files ∧
    ((scanAndUpdateFiles p fs now1).files.input.Pairwise
        (fun a b => strLe a.name b.name = true) ∧
     (scanAndUpdateFiles p fs now1).files.processed.Pairwise
        (fun a b => strLe a.name b.name = true) ∧
     (scanAndUpdateFiles p fs now1).files.output.Pairwise
        (fun a b => strLe a.name b.name = true)) :=
  ⟨rfl, sortByName_sorted _, sortByName_sorted _, sortByName_sorted _⟩

/-- Modelled from the claim's words, for comparison with the code: "the
paths of every processed-bucket file whose type is image". -/
def claimImagePaths (p : Project) : List String :=
  (p.files.processed.filter (fun f => f.type == "image")).map FileRec.path

/-- Counterexample to claim C9 as stated: a processed `.gif` file has
file type `"image"`, but `get_image_dirs` selects by path suffix
(`.png`/`.jpg`/`.jpeg` only), so `ui_image` misses it — the rebuilt lists
are not "every processed-bucket file whose type is image". -/
theorem updateFromProject_type_image_counterexample :
    fileTypeFromExtension "a.gif" = "image" ∧
    (updateFromProject
      ⟨"P", "id0", 0, 0, "/b", "/b/P_id0", "/b/P_id0/input", "/b/P_id0/processed",
        "/b/P_id0/output", "", [],
        ⟨[], [⟨"/b/P_id0/processed/a.gif", "a.gif", "image", "0", "0", 3⟩], []⟩, [],
        ⟨"", [], [], [], ⟨"", "", [], ""⟩, "", [], [], ""⟩⟩
      ⟨[], []⟩
      ⟨"", [], [], [], ⟨"", "", [], ""⟩, "", [], [], ""⟩).ui_image = [] ∧
    claimImagePaths
      ⟨"P", "id0", 0, 0, "/b", "/b/P_id0", "/b/P_id0/input", "/b/P_id0/processed",
        "/b/P_id0/output", "", [],
        ⟨[], [⟨"/b/P_id0/processed/a.gif", "a.gif", "image", "0", "0", 3⟩], []⟩, [],
        ⟨"", [], [], [], ⟨"", "", [], ""⟩, "", [], [], ""⟩⟩ =
      ["/b/P_id0/processed/a.gif"] := by
  refine ⟨by decide, ?_, by decide⟩
  decide

/-- Claim C9 as amended: after `update_from_project`, `ui_image` and
`diagram_image` are both the full list of processed-bucket file paths
that end (case-insensitively) in `.png`, `.jpg` or `.jpeg`, and the two
fields are always identical. -/
theorem updateFromProject_images (p : Project) (fs : FS) (c : ContextM) :
    (updateFromProject p fs c).ui_image = getImageDirs p ∧
    (updateFromProject p fs c).diagram_image = (updateFromProject p fs c).ui_image ∧
    getImageDirs p = (p.files.processed.filter (fun f =>
      strEndsWith (strToLower f.path) ".png" || strEndsWith (strToLower f.path) ".jpg" ||
      strEndsWith (strToLower f.path) ".jpeg")).map FileRec.path :=
  ⟨rfl, rfl, rfl⟩

/-- Claim C6: renaming a tracked file to a destination name that
already exists in the bucket directory fails with `False` and leaves
the project record and the filesystem exactly as they were — the rename
is rejected whole, never partially applied. -/
theorem renameFile_existing_dest (p : Project) (fs : FS)
    (file_name new_name file_type : String) (now : Nat)
    (dest_dir : String) (recs : List FileRec) (file_info : FileRec)
    (hb : bucketFiles p file_type = some recs)
    (hdest : destDirMap p file_type = some dest_dir)
    (hfind : recs.find? (fun f => f.name == file_name) = some file_info)
    (hold : fs.existsPath file_info.path = true)
    (hnew : fs.existsPath (pathJoin dest_dir new_name) = true) :
    renameFile p fs file_name new_name file_type now = (false, p, fs) := by
  simp [renameFile, hb, hdest, hfind, hold, hnew]

/-- The empty context value used by the concrete witness scenarios. -/
def ctxEmpty : ContextM := ⟨"", [], [], [], ⟨"", "", [], ""⟩, "", [], [], ""⟩

/-- Witness filesystem for C6: the bucket directory holds `a.txt` and
`b.txt`. -/
def fsRen : FS :=
  ⟨["/pr", "/pr/input", "/pr/processed", "/pr/output"],
   [⟨"/pr/input", "a.txt", "x", 1, 2⟩, ⟨"/pr/input", "b.txt", "y", 3, 4⟩]⟩

/-- Witness project for C6, tracking both files of `fsRen`. -/
def pRen : Project :=
  ⟨"P", "id0", 0, 0, "/b", "/pr", "/pr/input", "/pr/processed", "/pr/output", "", [],
   ⟨[⟨"/pr/input/a.txt", "a.txt", "text", "1", "2", 1⟩,
     ⟨"/pr/input/b.txt", "b.txt", "text", "3", "4", 1⟩], [], []⟩, [], ctxEmpty⟩

/-- Witness for C6: renaming `a.txt` to the already-present `b.txt`
returns `False` and changes nothing. -/
theorem renameFile_existing_dest_witness :
    (bucketFiles pRen "input" =
        some [⟨"/pr/input/a.txt", "a.txt", "text", "1", "2", 1⟩,
              ⟨"/pr/input/b.txt", "b.txt", "text", "3", "4", 1⟩] ∧
      destDirMap pRen "input" = some "/pr/input" ∧
      List.find? (fun f => f.name == "a.txt")
          [(⟨"/pr/input/a.txt", "a.txt", "text", "1", "2", 1⟩ : FileRec),
           ⟨"/pr/input/b.txt", "b.txt", "text", "3", "4", 1⟩] =
        some ⟨"/pr/input/a.txt", "a.txt", "text", "1", "2", 1⟩ ∧
      fsRen.existsPath "/pr/input/a.txt" = true ∧
      fsRen.existsPath (pathJoin "/pr/input" "b.txt") = true) ∧
    renameFile pRen fsRen "a.txt" "b.txt" "input" 9 = (false, pRen, fsRen) :=
  ⟨⟨by decide, by decide, by decide, by decide, by decide⟩,
    renameFile_existing_dest pRen fsRen "a.txt" "b.txt" "input" 9 "/pr/input"
      [⟨"/pr/input/a.txt", "a.txt", "text", "1", "2", 1⟩,
       ⟨"/pr/input/b.txt", "b.txt", "text", "3", "4", 1⟩]
      ⟨"/pr/input/a.txt", "a.txt", "text", "1", "2", 1⟩
      (by decide) (by decide) (by decide) (by decide) (by decide)⟩

/-- The sequence of names `create_file` tries: the requested name, then
`orig_1.ext`, `orig_2.ext`, … -/
def candidateName (orig ext file_name : String) : Nat → String
  | 0 => file_name
  | k + 1 => orig ++ "_" ++ Nat.repr (k + 1) ++ ext

/-- The collision loop returns the first candidate not on disk: the
result is some `candidateName j`, free, with every earlier candidate
(from the starting index on) occupied. -/
theorem findFreeName_spec (fs : FS) (dest orig ext fn : String) :
    ∀ (fuel i : Nat) (nm : String),
      findFreeName fs dest orig ext (candidateName orig ext fn i) (i + 1) fuel = some nm →
      ∃ j, i ≤ j ∧ nm = candidateName orig ext fn j ∧
        fs.existsPath (pathJoin dest (candidateName orig ext fn j)) = false ∧
        ∀ m, i ≤ m → m < j →
          fs.existsPath (pathJoin dest (candidateName orig ext fn m)) = true := by
  intro fuel
  induction fuel with
  | zero => intro i nm h; cases h
  | succ fuel ih =>
    intro i nm h
    rw [findFreeName] at h
    by_cases hex : fs.existsPath (pathJoin dest (candidateName orig ext fn i)) = true
    · rw [if_pos hex] at h
      have hcur : orig ++ "_" ++ Nat.repr (i + 1) ++ ext = candidateName orig ext fn (i + 1) :=
        rfl
      rw [hcur] at h
      obtain ⟨j, hij, hnm, hfree, hocc⟩ := ih (i + 1) nm h
      refine ⟨j, le_trans (Nat.le_succ i) hij, hnm, hfree, fun m him hmj => ?_⟩
      rcases Nat.eq_or_lt_of_le him with rfl | him'
      · exact hex
      · exact hocc m him' hmj
    · rw [if_neg hex] at h
      cases h
      refine ⟨i, le_refl i, rfl, Bool.eq_false_iff.mpr hex, fun m him hmi => ?_⟩
      exact absurd (lt_of_le_of_lt him hmi) (lt_irrefl i)

theorem isfile_eq_false_of_existsPath (fs : FS) (q : String)
    (h : fs.existsPath q = false) : fs.isfile q = false := by
  rw [FS.existsPath, Bool.or_eq_false_iff] at h
  exact h.2

theorem find?_append_fresh (e0 : FsEntry) (q : String) (he0 : (e0.path == q) = true) :
    ∀ (l : List FsEntry), (∀ x ∈ l, ¬(x.path == q) = true) →
      List.find? (fun e => e.path == q) (l ++ [e0]) = some e0 := by
  intro l
  induction l with
  | nil =>
    intro _
    simp [List.find?, he0]
  | cons e es ihe =>
    intro h
    have he : (e.path == q) = false :=
      Bool.eq_false_iff.mpr (h e (List.mem_cons_self e es))
    rw [List.cons_append]
    simp only [List.find?, he]
    exact ihe (fun x hx => h x (List.mem_cons_of_mem e hx))

/-- Writing to a path with no existing file appends a fresh entry, and
looking the path up afterwards finds exactly that entry. -/
theorem lookup_write_fresh (fs : FS) (d n content : String) (now : Nat)
    (h : fs.isfile (pathJoin d n) = false) :
    (fs.write d n content now).lookup (pathJoin d n) =
      some ⟨d, n, content, now, now⟩ := by
  rw [FS.write, if_neg (by rw [h]; exact Bool.false_ne_true)]
  rw [FS.isfile, List.any_eq_false] at h
  show List.find? (fun e => e.path == pathJoin d n)
    (fs.entries ++ [⟨d, n, content, now, now⟩]) = some ⟨d, n, content, now, now⟩
  exact find?_append_fresh ⟨d, n, content, now, now⟩ (pathJoin d n)
    (by simp [FsEntry.path]) fs.entries h

/-- Claim C7: when `create_file` returns a path, that path was free
beforehand (nothing is ever overwritten), it is the bucket directory
joined with either the requested name or the first free `_k` variant —
every earlier candidate name being occupied — and the content now sits
in a fresh entry at that path. -/
theorem createFile_collision_policy (p : Project) (fs : FS)
    (file_name file_type content : String) (now fuel : Nat) (path : String)
    (h : (createFile p fs file_name file_type content now fuel).1 = some path) :
    ∃ dest_dir nm, destDirMap p file_type = some dest_dir ∧
      path = pathJoin dest_dir nm ∧
      fs.existsPath path = false ∧
      (∃ j, nm = candidateName (splitext file_name).1 (splitext file_name).2 file_name j ∧
        ∀ m, m < j → fs.existsPath (pathJoin dest_dir
          (candidateName (splitext file_name).1 (splitext file_name).2 file_name m)) = true) ∧
      ((createFile p fs file_name file_type content now fuel).2.2).lookup path =
        some ⟨dest_dir, nm, content, now, now⟩ := by
  rcases hbf : bucketFiles p file_type with _ | recs
  · simp [createFile, hbf] at h
  rcases hdd : destDirMap p file_type with _ | dest
  · simp [createFile, hbf, hdd] at h
  rcases hff : findFreeName fs dest (splitext file_name).1 (splitext file_name).2
      file_name 1 fuel with _ | nm
  · simp [createFile, hbf, hdd, hff] at h
  · simp only [createFile, hbf, hdd, hff] at h
    obtain rfl : pathJoin dest nm = path := Option.some.inj h
    have hspec := findFreeName_spec fs dest (splitext file_name).1 (splitext file_name).2
      file_name fuel 0 nm hff
    obtain ⟨j, -, hnm, hfree, hocc⟩ := hspec
    have hfree' : fs.existsPath (pathJoin dest nm) = false := by rw [hnm]; exact hfree
    refine ⟨dest, nm, rfl, rfl, hfree', ⟨j, hnm, fun m hmj => hocc m (Nat.zero_le m) hmj⟩, ?_⟩
    simp only [createFile, hbf, hdd, hff]
    exact lookup_write_fresh fs dest nm content now
      (isfile_eq_false_of_existsPath fs (pathJoin dest nm) hfree')

/-- Witness filesystem for C7: the project directories exist and are
empty. -/
def fsC7 : FS := ⟨["/pr", "/pr/input", "/pr/processed", "/pr/output"], []⟩

/-- Witness project for C7. -/
def pC7 : Project :=
  ⟨"P", "id0", 0, 0, "/b", "/pr", "/pr/input", "/pr/processed", "/pr/output", "", [],
   ⟨[], [], []⟩, [], ctxEmpty⟩


/-- Witness for C7, the spec's own scenario: creating `report.md` twice
in the same bucket yields `report.md` then `report_1.md`, both on disk
and both tracked, and the second returned path satisfies the general
collision-policy theorem. -/
theorem createFile_collision_policy_witness :
    (createFile pC7 fsC7 "report.md" "input" "one" 10 9).1 =
      some "/pr/input/report.md" ∧
    (createFile (createFile pC7 fsC7 "report.md" "input" "one" 10 9).2.1
      (createFile pC7 fsC7 "report.md" "input" "one" 10 9).2.2
      "report.md" "input" "two" 20 9).1 = some "/pr/input/report_1.md" ∧
    (createFile (createFile pC7 fsC7 "report.md" "input" "one" 10 9).2.1
      (createFile pC7 fsC7 "report.md" "input" "one" 10 9).2.2
      "report.md" "input" "two" 20 9).2.2.isfile "/pr/input/report.md" = true ∧
    (createFile (createFile pC7 fsC7 "report.md" "input" "one" 10 9).2.1
      (createFile pC7 fsC7 "report.md" "input" "one" 10 9).2.2
      "report.md" "input" "two" 20 9).2.2.isfile "/pr/input/report_1.md" = true ∧
    (createFile (createFile pC7 fsC7 "report.md" "input" "one" 10 9).2.1
      (createFile pC7 fsC7 "report.md" "input" "one" 10 9).2.2
      "report.md" "input" "two" 20 9).2.1.files.input.map FileRec.name =
      ["report.md", "report_1.md"] ∧
    (∃ dest_dir nm, destDirMap (createFile pC7 fsC7 "report.md" "input" "one" 10 9).2.1
        "input" = some dest_dir ∧
      ("/pr/input/report_1.md" : String) = pathJoin dest_dir nm ∧
      (createFile pC7 fsC7 "report.md" "input" "one" 10 9).2.2.existsPath
        "/pr/input/report_1.md" = false ∧
      (∃ j, nm = candidateName (splitext "report.md").1 (splitext "report.md").2
          "report.md" j ∧
        ∀ m, m < j → (createFile pC7 fsC7 "report.md" "input" "one" 10 9).2.2.existsPath
          (pathJoin dest_dir
            (candidateName (splitext "report.md").1 (splitext "report.md").2
              "report.md" m)) = true) ∧
      ((createFile (createFile pC7 fsC7 "report.md" "input" "one" 10 9).2.1
          (createFile pC7 fsC7 "report.md" "input" "one" 10 9).2.2
          "report.md" "input" "two" 20 9).2.2).lookup "/pr/input/report_1.md" =
        some ⟨dest_dir, nm, "two", 20, 20⟩) :=
  ⟨by decide, by decide, by decide, by decide, by decide,
    createFile_collision_policy
      (createFile pC7 fsC7 "report.md" "input" "one" 10 9).2.1
      (createFile pC7 fsC7 "report.md" "input" "one" 10 9).2.2
      "report.md" "input" "two" 20 9 "/pr/input/report_1.md" (by decide)⟩
